import Mathlib

/-!
Shallow embedding of the thiha-shop-transaction charge-request and purchase
logic.

Sources embedded here:
- `src/app/api/charge-requests/route.ts` : the `GET` handler's status filter
  and the `PUT` (approve) handler, modelled as a state transition over the
  `ChargeRequests` and `Users` tables.  Database rows are Lean structures,
  the two tables are lists, and each supabase read/write performed by the
  handler is recorded in an event trace so that ordering properties can be
  stated.  The `requested_at` ordering of `GET` is not modelled: the claims
  about `GET` concern only the `status` filter, which commutes with ordering.
- `src/unnamed/part_000` (`app/page.tsx`) : the client-side purchase flow
  `handlePurchase` together with its helpers `getTotalPrice` and
  `getSelectedProductsList`.  The server `/api/purchase` endpoint is not part
  of the repository; its response is a parameter (`ServerResp`).

Machine numbers: amounts, prices and balances are JavaScript numbers that the
code keeps in integer range, embedded as `Int`; quantities as `Nat`.
-/

namespace ThihaShop

/-- Row of the `Users` table (see `route.ts`: `phone_number`, `balance`,
`last_charge_date` are the selected columns). -/
structure User where
  id : Int
  phone_number : String
  balance : Int
  last_charge_date : String
deriving DecidableEq, Repr

/-- Row of the `ChargeRequests` table: `user_id` references `Users.id`,
`approved` defaults to `false` on insertion. -/
structure ChargeRequest where
  id : Int
  user_id : Int
  amount : Int
  approved : Bool
deriving DecidableEq, Repr

/-- The two tables the charge-request route reads and writes. -/
structure AppState where
  chargeRequests : List ChargeRequest
  users : List User
deriving DecidableEq, Repr

/-- The supabase query `.from("ChargeRequests").select("*").eq("id", idNum).maybeSingle()`:
first row whose `id` matches, if any. -/
def findRequest (l : List ChargeRequest) (n : Int) : Option ChargeRequest :=
  l.find? (fun r => r.id == n)

/-- The supabase query `.from("Users").select(...).eq("id", userId).maybeSingle()`. -/
def findUser (l : List User) (uid : Int) : Option User :=
  l.find? (fun u => u.id == uid)

/-- The write `.from("ChargeRequests").update(\x7b approved: true \x7d).eq("id", idNum)`:
sets the `approved` flag on every row whose `id` matches. -/
def markApproved (n : Int) (l : List ChargeRequest) : List ChargeRequest :=
  l.map (fun r => if r.id == n then { r with approved := true } else r)

/-- The write `.from("Users").update(\x7b balance: newBalance, last_charge_date: now \x7d).eq("id", userId)`. -/
def creditUser (uid : Int) (newBalance : Int) (now : String) (l : List User) : List User :=
  l.map (fun u =>
    if u.id == uid then { u with balance := newBalance, last_charge_date := now } else u)

/-- The parsed `id` field of the `PUT` body after `Number(id)`: the body may
lack the field (`id == null`), carry a value whose numeric coercion is not
finite (`!Number.isFinite(idNum)`), or yield a finite number. -/
inductive IdInput
  | missing
  | notNumeric
  | num (n : Int)
deriving DecidableEq, Repr

/-- The JSON responses the `PUT` handler can produce. -/
inductive ApproveResp
  | badRequest (msg : String)
  | notFound (msg : String)
  | alreadyApproved
  | success (balance : Int)
deriving DecidableEq, Repr

/-- HTTP status code attached by `json(..., status)` to each response shape. -/
def ApproveResp.status : ApproveResp → Nat
  | .badRequest _ => 400
  | .notFound _ => 404
  | .alreadyApproved => 200
  | .success _ => 200

/-- One database access performed by the `PUT` handler, in program order. -/
inductive DbEvent
  | readRequest (id : Int)
  | writeRequestApproved (id : Int)
  | readUser (uid : Int)
  | writeUserBalance (uid : Int) (newBalance : Int) (now : String)
deriving DecidableEq, Repr

/-- Whether the event is the `Users` balance-credit write. -/
def DbEvent.isBalanceWrite : DbEvent → Bool
  | .writeUserBalance _ _ _ => true
  | _ => false

/-- Whether the event is the `ChargeRequests` approved-flag write. -/
def DbEvent.isApprovedWrite : DbEvent → Bool
  | .writeRequestApproved _ => true
  | _ => false

/-- Result of one `PUT` invocation: the response, the resulting table state,
and the trace of database accesses in the order the handler issued them. -/
structure ApproveOut where
  resp : ApproveResp
  state : AppState
  trace : List DbEvent
deriving DecidableEq, Repr

/-- The `PUT` handler of `route.ts` (approve charge request), with `now` the
value of `nowISO()`.  Follows the source line by line: id validation, request
lookup (404 on absence), early return on `approved`, the approved-flag write,
the user lookup (404 on absence, after the flag write), then the balance and
`last_charge_date` write.  `invalidateBalanceCache` touches no stored state
and is not modelled. -/
def approvePut (s : AppState) (input : IdInput) (now : String) : ApproveOut :=
  match input with
  | .missing => ⟨.badRequest "id is required", s, []⟩
  | .notNumeric => ⟨.badRequest "invalid id", s, []⟩
  | .num n =>
    match findRequest s.chargeRequests n with
    | none => ⟨.notFound "not found", s, [.readRequest n]⟩
    | some req =>
      if req.approved then ⟨.alreadyApproved, s, [.readRequest n]⟩
      else
        let amount := req.amount
        let s1 : AppState := ⟨markApproved n s.chargeRequests, s.users⟩
        match findUser s1.users req.user_id with
        | none =>
          ⟨.notFound "user not found", s1,
            [.readRequest n, .writeRequestApproved n, .readUser req.user_id]⟩
        | some u =>
          let newBalance := u.balance + amount
          ⟨.success newBalance,
            ⟨s1.chargeRequests, creditUser req.user_id newBalance now s1.users⟩,
            [.readRequest n, .writeRequestApproved n, .readUser req.user_id,
              .writeUserBalance req.user_id newBalance now]⟩

/-- Table state reached after `k` repeated `PUT` calls with the same body. -/
def approveIter (input : IdInput) (now : String) : Nat → AppState → AppState
  | 0, s => s
  | Nat.succ k, s => approveIter input now k (approvePut s input now).state

/-- The `status` query parameter after the `|| "all"` default: an absent
parameter, and the empty string (falsy in JavaScript), both become `"all"`. -/
def statusOf (p : Option String) : String :=
  match p with
  | none => "all"
  | some s => if s = "" then "all" else s

/-- The `GET` handler's filter over the `ChargeRequests` rows: `.eq("approved", false)`
when `status === "pending"`, `.eq("approved", true)` when `status === "approved"`,
otherwise no filter.  Ordering and the `Users` join are not modelled. -/
def getChargeRequests (p : Option String) (l : List ChargeRequest) : List ChargeRequest :=
  let status := statusOf p
  if status = "pending" then l.filter (fun r => r.approved == false)
  else if status = "approved" then l.filter (fun r => r.approved == true)
  else l

/-- Catalog product as normalised by the purchase page. -/
structure Product where
  id : Int
  name : String
  price : Int
deriving DecidableEq, Repr

/-- A `SelectedProduct` row of the purchase page: a selection-row id, the
product and a quantity. -/
structure SelectedProduct where
  rowId : String
  product : Product
  quantity : Nat
deriving DecidableEq, Repr

/-- `getTotalPrice` of `page.tsx`: `reduce` over the selected rows of
`price * (quantity || 1)`; the JavaScript `||` turns a zero quantity into 1. -/
def getTotalPrice (selected : List SelectedProduct) : Int :=
  selected.foldl
    (fun total item =>
      total + item.product.price *
        (((if item.quantity = 0 then 1 else item.quantity) : Nat) : Int))
    0

/-- A line of `getSelectedProductsList`: product id, name, price, quantity. -/
structure ReceiptItem where
  id : Int
  name : String
  price : Int
  quantity : Nat
deriving DecidableEq, Repr

/-- `getSelectedProductsList` of `page.tsx`. -/
def getSelectedProductsList (selected : List SelectedProduct) : List ReceiptItem :=
  selected.map (fun row => ⟨row.product.id, row.product.name, row.product.price, row.quantity⟩)

/-- One element of the `items` array sent to `POST /api/purchase`. -/
structure ApiItem where
  product_id : String
  qty : Nat
  price : Int
  total : Int
deriving DecidableEq, Repr

/-- The `selectedList.map(...)` shaping of the request body in `handlePurchase`. -/
def toApiItem (it : ReceiptItem) : ApiItem :=
  ⟨toString it.id, it.quantity, it.price, it.price * (it.quantity : Int)⟩

/-- The `/api/purchase` endpoint is outside this repository; its observable
response is `response.ok` plus an optional `balance_after` field. -/
structure ServerResp where
  ok : Bool
  balance_after : Option Int
deriving DecidableEq, Repr

/-- The `purchaseData` receipt shown on success. -/
structure Receipt where
  products : List ReceiptItem
  totalPrice : Int
  timestamp : String
  remainingBalance : Int
deriving DecidableEq, Repr

/-- Outcome of `handlePurchase`: the two early-return alerts, success with a
receipt, or the failure alert on a non-ok response. -/
inductive PurchaseResult
  | noItems
  | insufficient
  | purchased (receipt : Receipt)
  | failed
deriving DecidableEq, Repr

/-- Observable effect of one `handlePurchase` run: the outcome, the client
balance state afterwards, and the request body sent to `/api/purchase`
(`none` when the early returns fire before any network call). -/
structure PurchaseOut where
  result : PurchaseResult
  newBalance : Int
  request : Option (List ApiItem)
deriving DecidableEq, Repr

/-- `handlePurchase` of `page.tsx`, with `now` the formatted timestamp and
`srv` the `/api/purchase` response.  Empty selection and
`balance < totalPrice` return before any network call; on an ok response the
new balance is `result.balance_after ?? balance - totalPrice` and the receipt
echoes `selectedList` and `totalPrice`. -/
def handlePurchase (balance : Int) (selected : List SelectedProduct) (now : String)
    (srv : ServerResp) : PurchaseOut :=
  let selectedList := getSelectedProductsList selected
  let totalPrice := getTotalPrice selected
  if selectedList.length = 0 then ⟨.noItems, balance, none⟩
  else if balance < totalPrice then ⟨.insufficient, balance, none⟩
  else
    let items := selectedList.map toApiItem
    if srv.ok then
      let newBal := match srv.balance_after with
        | some b => b
        | none => balance - totalPrice
      ⟨.purchased ⟨selectedList, totalPrice, now, newBal⟩, newBal, some items⟩
    else ⟨.failed, balance, some items⟩

/-! Helper lemmas about the table reads and writes. -/

/-- Looking up the id that `markApproved` targeted finds the same row with its
`approved` flag set. -/
theorem findRequest_markApproved (n : Int) (l : List ChargeRequest) :
    findRequest (markApproved n l) n =
      (findRequest l n).map (fun r => { r with approved := true }) := by
  induction l with
  | nil => rfl
  | cons r t ih =>
    by_cases h : r.id = n
    · simp [findRequest, markApproved, h]
    · simp only [findRequest, markApproved, List.map_cons] at ih ⊢
      rw [if_neg (by simpa using h)]
      simp only [List.find?_cons]
      rw [show (r.id == n) = false by simpa using h]
      exact ih

/-- Looking up the id that `creditUser` targeted finds the same row with the
new balance and timestamp. -/
theorem findUser_creditUser (uid newBalance : Int) (now : String) (l : List User) :
    findUser (creditUser uid newBalance now l) uid =
      (findUser l uid).map
        (fun u => { u with balance := newBalance, last_charge_date := now }) := by
  induction l with
  | nil => rfl
  | cons u t ih =>
    by_cases h : u.id = uid
    · simp [findUser, creditUser, h]
    · simp only [findUser, creditUser, List.map_cons] at ih ⊢
      rw [if_neg (by simpa using h)]
      simp only [List.find?_cons]
      rw [show (u.id == uid) = false by simpa using h]
      exact ih

/-- C1: approving an existing, not-yet-approved charge request whose owning
user exists marks the request approved, credits the user's balance by exactly
the request's amount, sets `last_charge_date` to the current time, and
returns success with the new balance. -/
theorem approve_pending_credits (s : AppState) (n : Int) (now : String)
    (req : ChargeRequest) (u : User)
    (hreq : findRequest s.chargeRequests n = some req)
    (hpend : req.approved = false)
    (huser : findUser s.users req.user_id = some u) :
    (approvePut s (.num n) now).resp = .success (u.balance + req.amount) ∧
    findRequest (approvePut s (.num n) now).state.chargeRequests n =
      some { req with approved := true } ∧
    findUser (approvePut s (.num n) now).state.users req.user_id =
      some { u with balance := u.balance + req.amount, last_charge_date := now } := by
  have hresp : (approvePut s (.num n) now).resp = .success (u.balance + req.amount) := by
    simp [approvePut, hreq, hpend, huser]
  have hstate : (approvePut s (.num n) now).state =
      ⟨markApproved n s.chargeRequests,
        creditUser req.user_id (u.balance + req.amount) now s.users⟩ := by
    simp [approvePut, hreq, hpend, huser]
  refine ⟨hresp, ?_, ?_⟩
  · rw [hstate]
    show findRequest (markApproved n s.chargeRequests) n = _
    rw [findRequest_markApproved, hreq]
    rfl
  · rw [hstate]
    show findUser (creditUser req.user_id (u.balance + req.amount) now s.users)
        req.user_id = _
    rw [findUser_creditUser, huser]
    rfl

/-- Concrete run of `approve_pending_credits`: request 1 for 5000 on a user
with balance 0 ends approved with the balance at 5000. -/
def witState1 : AppState :=
  ⟨[⟨1, 7, 5000, false⟩], [⟨7, "09123456", 0, ""⟩]⟩

/-- Witness for C1 at `witState1`. -/
theorem approve_pending_credits_witness :
    (approvePut witState1 (.num 1) "2026-10-11T00:00:00Z").resp = .success (0 + 5000) ∧
    findRequest
        (approvePut witState1 (.num 1) "2026-10-11T00:00:00Z").state.chargeRequests 1 =
      some ⟨1, 7, 5000, true⟩ ∧
    findUser (approvePut witState1 (.num 1) "2026-10-11T00:00:00Z").state.users 7 =
      some ⟨7, "09123456", 0 + 5000, "2026-10-11T00:00:00Z"⟩ :=
  approve_pending_credits witState1 1 "2026-10-11T00:00:00Z"
    ⟨1, 7, 5000, false⟩ ⟨7, "09123456", 0, ""⟩ rfl rfl rfl

/-- C2: approving an already-approved request returns the already-applied
response and changes nothing: the whole output state equals the input state,
and the only database access is the request read. -/
theorem approve_already_noop (s : AppState) (n : Int) (now : String)
    (req : ChargeRequest)
    (hreq : findRequest s.chargeRequests n = some req)
    (happ : req.approved = true) :
    approvePut s (.num n) now = ⟨.alreadyApproved, s, [.readRequest n]⟩ := by
  simp [approvePut, hreq, happ]

/-- State holding an already-approved request, for the C2 witness. -/
def witState2 : AppState :=
  ⟨[⟨2, 7, 5000, true⟩], [⟨7, "09123456", 5000, "t1"⟩]⟩

/-- Witness for C2 at `witState2`. -/
theorem approve_already_noop_witness :
    approvePut witState2 (.num 2) "t2" =
      ⟨.alreadyApproved, witState2, [.readRequest 2]⟩ :=
  approve_already_noop witState2 2 "t2" ⟨2, 7, 5000, true⟩ rfl rfl

/-- C6: approving an id carried by no charge request returns 404 not-found,
leaves the state untouched (in particular creates no request), and any number
of retries leaves the state equal to the original. -/
theorem approve_nonexistent_notfound (s : AppState) (n : Int) (now : String)
    (h : findRequest s.chargeRequests n = none) :
    approvePut s (.num n) now = ⟨.notFound "not found", s, [.readRequest n]⟩ ∧
    (approvePut s (.num n) now).resp.status = 404 ∧
    ∀ k, approveIter (.num n) now k s = s := by
  have h1 : approvePut s (.num n) now = ⟨.notFound "not found", s, [.readRequest n]⟩ := by
    simp [approvePut, h]
  refine ⟨h1, by rw [h1]; rfl, ?_⟩
  intro k
  induction k with
  | zero => rfl
  | succ k ih =>
    show approveIter (.num n) now k (approvePut s (.num n) now).state = s
    rw [h1]
    exact ih

/-- Witness for C6: approving id 5 on an empty store, retried three times. -/
theorem approve_nonexistent_notfound_witness :
    approvePut ⟨[], []⟩ (.num 5) "t3" =
        ⟨.notFound "not found", ⟨[], []⟩, [.readRequest 5]⟩ ∧
    (approvePut ⟨[], []⟩ (.num 5) "t3").resp.status = 404 ∧
    approveIter (.num 5) "t3" 3 ⟨[], []⟩ = ⟨[], []⟩ := by
  have h := approve_nonexistent_notfound ⟨[], []⟩ 5 "t3" rfl
  exact ⟨h.1, h.2.1, h.2.2 3⟩

/-- C7: a `PUT` body whose id does not coerce to a finite number is rejected
with 400 `invalid id` before any database access: the state is unchanged and
the access trace is empty. -/
theorem approve_invalid_id_rejected (s : AppState) (now : String) :
    approvePut s .notNumeric now = ⟨.badRequest "invalid id", s, []⟩ ∧
    (approvePut s .notNumeric now).resp.status = 400 :=
  ⟨rfl, rfl⟩

/-- C10: the `GET` status filter keeps exactly the unapproved rows for
`pending`, exactly the approved rows for `approved`, and leaves the list
unfiltered for an absent parameter or any other string. -/
theorem get_status_filter (l : List ChargeRequest) :
    getChargeRequests (some "pending") l = l.filter (fun r => r.approved == false) ∧
    getChargeRequests (some "approved") l = l.filter (fun r => r.approved == true) ∧
    getChargeRequests none l = l ∧
    ∀ str : String, str ≠ "pending" → str ≠ "approved" →
      getChargeRequests (some str) l = l := by
  refine ⟨rfl, rfl, rfl, ?_⟩
  intro str h1 h2
  by_cases he : str = ""
  · subst he; rfl
  · simp [getChargeRequests, statusOf, he, h1, h2]

/-- Two-row store used by the C10 witness. -/
def witReqs : List ChargeRequest := [⟨1, 7, 100, false⟩, ⟨2, 7, 200, true⟩]

/-- Witness for C10 on `witReqs`, with `"bogus"` as the unrecognized value. -/
theorem get_status_filter_witness :
    getChargeRequests (some "pending") witReqs = [⟨1, 7, 100, false⟩] ∧
    getChargeRequests (some "approved") witReqs = [⟨2, 7, 200, true⟩] ∧
    getChargeRequests none witReqs = witReqs ∧
    getChargeRequests (some "bogus") witReqs = witReqs := by
  have h := get_status_filter witReqs
  exact ⟨by rw [h.1]; rfl, by rw [h.2.1]; rfl, h.2.2.1,
    h.2.2.2 "bogus" (by decide) (by decide)⟩

/-- State whose single pending request references a user id that no `Users`
row carries: the inconsistency the `PUT` handler's second 404 branch handles. -/
def orphanState : AppState := ⟨[⟨1, 7, 100, false⟩], []⟩

/-- C3 counterexample: on `orphanState` a single `approve` call returns the
`user not found` error, yet leaves the charge request marked `approved = true`
while no user balance was credited (the `Users` table is still empty).  The
approved-flag write and the balance-credit write therefore do not behave as
one unit of work. -/
theorem approve_partial_state_counterexample :
    (approvePut orphanState (.num 1) "t4").resp = .notFound "user not found" ∧
    (approvePut orphanState (.num 1) "t4").state.chargeRequests =
      [⟨1, 7, 100, true⟩] ∧
    (approvePut orphanState (.num 1) "t4").state.users = [] :=
  ⟨rfl, rfl, rfl⟩

/-- C3 amended: when every charge request's owning user record exists, one
`approve` call either changes nothing or applies the approved-flag write and
the balance-credit write together in the same invocation. -/
theorem approve_atomic_of_users_present (s : AppState) (input : IdInput) (now : String)
    (husers : ∀ r ∈ s.chargeRequests, (findUser s.users r.user_id).isSome = true) :
    (approvePut s input now).state = s ∨
    ∃ n req u, input = .num n ∧
      findRequest s.chargeRequests n = some req ∧ req.approved = false ∧
      findUser s.users req.user_id = some u ∧
      (approvePut s input now).state =
        ⟨markApproved n s.chargeRequests,
          creditUser req.user_id (u.balance + req.amount) now s.users⟩ := by
  cases input with
  | missing => left; rfl
  | notNumeric => left; rfl
  | num n =>
    cases hf : findRequest s.chargeRequests n with
    | none => left; simp [approvePut, hf]
    | some req =>
      cases ha : req.approved with
      | true => left; simp [approvePut, hf, ha]
      | false =>
        have hmem : req ∈ s.chargeRequests := List.mem_of_find?_eq_some hf
        have hsome := husers req hmem
        cases hu : findUser s.users req.user_id with
        | none => rw [hu] at hsome; simp at hsome
        | some u =>
          right
          exact ⟨n, req, u, rfl, hf, ha, hu, by simp [approvePut, hf, ha, hu]⟩

/-- Witness for the amended C3 at `witState1`, whose only request's user
exists: the call lands in the both-writes branch. -/
theorem approve_atomic_of_users_present_witness :
    (approvePut witState1 (.num 1) "t5").state = witState1 ∨
    ∃ n req u, (IdInput.num 1) = IdInput.num n ∧
      findRequest witState1.chargeRequests n = some req ∧ req.approved = false ∧
      findUser witState1.users req.user_id = some u ∧
      (approvePut witState1 (.num 1) "t5").state =
        ⟨markApproved n witState1.chargeRequests,
          creditUser req.user_id (u.balance + req.amount) "t5" witState1.users⟩ :=
  approve_atomic_of_users_present witState1 (.num 1) "t5" (by decide)

/-! Trace ordering: the approved-flag write always precedes the credit. -/

/-- The four access traces a `PUT` invocation can produce, matching the four
exit points of the handler. -/
theorem approve_trace_cases (s : AppState) (input : IdInput) (now : String) :
    (approvePut s input now).trace = [] ∨
    (∃ n, (approvePut s input now).trace = [.readRequest n]) ∨
    (∃ n uid, (approvePut s input now).trace =
      [.readRequest n, .writeRequestApproved n, .readUser uid]) ∨
    (∃ n uid nb, (approvePut s input now).trace =
      [.readRequest n, .writeRequestApproved n, .readUser uid,
        .writeUserBalance uid nb now]) := by
  cases input with
  | missing => left; rfl
  | notNumeric => left; rfl
  | num n =>
    cases hf : findRequest s.chargeRequests n with
    | none => right; left; exact ⟨n, by simp [approvePut, hf]⟩
    | some req =>
      cases ha : req.approved with
      | true => right; left; exact ⟨n, by simp [approvePut, hf, ha]⟩
      | false =>
        cases hu : findUser s.users req.user_id with
        | none =>
          right; right; left
          exact ⟨n, req.user_id, by simp [approvePut, hf, ha, hu]⟩
        | some u =>
          right; right; right
          exact ⟨n, req.user_id, u.balance + req.amount,
            by simp [approvePut, hf, ha, hu]⟩

/-- In a list of accesses, every balance-credit write is preceded by an
approved-flag write. -/
def flagBeforeCredit (tr : List DbEvent) : Prop :=
  ∀ j e, tr.get? j = some e → e.isBalanceWrite = true →
    ∃ i e2, i < j ∧ tr.get? i = some e2 ∧ e2.isApprovedWrite = true

/-- The empty trace trivially orders the flag write before any credit. -/
theorem flagBeforeCredit_nil : flagBeforeCredit [] := by
  intro j e hj _
  simp at hj

/-- A lone request read orders the flag write before any credit. -/
theorem flagBeforeCredit_single (n : Int) :
    flagBeforeCredit [.readRequest n] := by
  intro j e hj hb
  match j with
  | 0 =>
    simp at hj
    subst hj
    simp [DbEvent.isBalanceWrite] at hb
  | k + 1 => simp at hj

/-- The vanished-user trace has no credit write at all. -/
theorem flagBeforeCredit_orphan (n uid : Int) :
    flagBeforeCredit [.readRequest n, .writeRequestApproved n, .readUser uid] := by
  intro j e hj hb
  match j with
  | 0 =>
    simp at hj
    subst hj
    simp [DbEvent.isBalanceWrite] at hb
  | 1 =>
    simp at hj
    subst hj
    simp [DbEvent.isBalanceWrite] at hb
  | 2 =>
    simp at hj
    subst hj
    simp [DbEvent.isBalanceWrite] at hb
  | k + 3 => simp at hj

/-- The full success trace credits the balance only at position 3, after the
flag write at position 1. -/
theorem flagBeforeCredit_full (n uid nb : Int) (now : String) :
    flagBeforeCredit [.readRequest n, .writeRequestApproved n, .readUser uid,
      .writeUserBalance uid nb now] := by
  intro j e hj hb
  match j with
  | 0 =>
    simp at hj
    subst hj
    simp [DbEvent.isBalanceWrite] at hb
  | 1 =>
    simp at hj
    subst hj
    simp [DbEvent.isBalanceWrite] at hb
  | 2 =>
    simp at hj
    subst hj
    simp [DbEvent.isBalanceWrite] at hb
  | 3 => exact ⟨1, .writeRequestApproved n, by omega, rfl, rfl⟩
  | k + 4 => simp at hj

/-- C8: in every `PUT` invocation, if the access trace credits a user balance
at position `j`, then some earlier position `i < j` carries the
approved-flag write: the credit is never applied first. -/
theorem approve_flag_write_precedes_credit (s : AppState) (input : IdInput)
    (now : String) (j : Nat) (e : DbEvent)
    (hj : (approvePut s input now).trace.get? j = some e)
    (hb : e.isBalanceWrite = true) :
    ∃ i e2, i < j ∧ (approvePut s input now).trace.get? i = some e2 ∧
      e2.isApprovedWrite = true := by
  have hfbc : flagBeforeCredit (approvePut s input now).trace := by
    rcases approve_trace_cases s input now with h | ⟨n, h⟩ | ⟨n, uid, h⟩ | ⟨n, uid, nb, h⟩ <;>
      rw [h]
    exacts [flagBeforeCredit_nil, flagBeforeCredit_single n,
      flagBeforeCredit_orphan n uid, flagBeforeCredit_full n uid nb now]
  exact hfbc j e hj hb

/-- Witness for C8: the successful run on `witState1` credits at position 3,
and the theorem produces the earlier flag write. -/
theorem approve_flag_write_precedes_credit_witness :
    ∃ i e2, i < 3 ∧ (approvePut witState1 (.num 1) "t6").trace.get? i = some e2 ∧
      e2.isApprovedWrite = true :=
  approve_flag_write_precedes_credit witState1 (.num 1) "t6" 3
    (.writeUserBalance 7 (0 + 5000) "t6") rfl rfl

/-! Immutability of approved rows. -/

/-- Row evolution allowed by the charge-request route: id and amount never
change, and a set approved flag stays set. -/
def reqPreserved (r rnew : ChargeRequest) : Prop :=
  rnew.id = r.id ∧ rnew.amount = r.amount ∧
    (r.approved = true → rnew.approved = true)

/-- A list preserves itself row by row. -/
theorem reqPreserved_refl (l : List ChargeRequest) :
    List.Forall₂ reqPreserved l l := by
  induction l with
  | nil => exact List.Forall₂.nil
  | cons r t ih => exact List.Forall₂.cons ⟨rfl, rfl, fun h => h⟩ ih

/-- The approved-flag write preserves every row: ids and amounts are kept and
the flag only ever moves to `true`. -/
theorem reqPreserved_markApproved (n : Int) (l : List ChargeRequest) :
    List.Forall₂ reqPreserved l (markApproved n l) := by
  induction l with
  | nil => exact List.Forall₂.nil
  | cons r t ih =>
    simp only [markApproved, List.map_cons]
    refine List.Forall₂.cons ?_ ih
    cases hr : (r.id == n) with
    | true => exact ⟨rfl, rfl, fun _ => rfl⟩
    | false => exact ⟨rfl, rfl, fun h => h⟩

/-- C9: one `PUT` invocation relates the old and new `ChargeRequests` rows
pointwise by `reqPreserved`: no row's id or amount changes, and every row
already approved stays approved with the same amount. -/
theorem approved_rows_immutable (s : AppState) (input : IdInput) (now : String) :
    List.Forall₂ reqPreserved s.chargeRequests
      (approvePut s input now).state.chargeRequests := by
  cases input with
  | missing => exact reqPreserved_refl _
  | notNumeric => exact reqPreserved_refl _
  | num n =>
    cases hf : findRequest s.chargeRequests n with
    | none =>
      simp only [approvePut, hf]
      exact reqPreserved_refl _
    | some req =>
      cases ha : req.approved with
      | true =>
        simp only [approvePut, hf, ha, if_true]
        exact reqPreserved_refl _
      | false =>
        cases hu : findUser s.users req.user_id with
        | none =>
          simp only [approvePut, hf, ha, Bool.false_eq_true, if_false, hu]
          exact reqPreserved_markApproved n _
        | some u =>
          simp only [approvePut, hf, ha, Bool.false_eq_true, if_false, hu]
          exact reqPreserved_markApproved n _

/-! Purchase flow. -/

/-- C4: when the computed total exceeds the balance (and items were actually
selected), `handlePurchase` returns the insufficient-balance outcome before
any network call: the client balance is unchanged and no request body was
sent, so no stored state can have been mutated. -/
theorem purchase_insufficient_no_mutation (balance : Int)
    (selected : List SelectedProduct) (now : String) (srv : ServerResp)
    (hne : selected ≠ [])
    (hover : balance < getTotalPrice selected) :
    handlePurchase balance selected now srv = ⟨.insufficient, balance, none⟩ := by
  have hlen : (getSelectedProductsList selected).length ≠ 0 := by
    simpa [getSelectedProductsList] using hne
  simp [handlePurchase, hlen, hover]

/-- Single selected row worth 2000, for the C4 witness. -/
def witRow : SelectedProduct := ⟨"r1", ⟨10, "Cola", 2000⟩, 1⟩

/-- Witness for C4: balance 1000, total 2000. -/
theorem purchase_insufficient_no_mutation_witness :
    handlePurchase 1000 [witRow] "t7" ⟨true, none⟩ =
      ⟨.insufficient, 1000, none⟩ :=
  purchase_insufficient_no_mutation 1000 [witRow] "t7" ⟨true, none⟩
    (by decide) (by decide)

/-- Folding the running total from `a` equals `a` plus the mapped sum. -/
theorem foldl_add_total (f : SelectedProduct → Int) (l : List SelectedProduct)
    (a : Int) :
    l.foldl (fun t item => t + f item) a = a + (l.map f).sum := by
  induction l generalizing a with
  | nil => simp
  | cons x t ih =>
    simp only [List.foldl_cons, List.map_cons, List.sum_cons]
    rw [ih, add_assoc]

/-- When no selected row has quantity 0 the `|| 1` fallback in
`getTotalPrice` is inert, and the total is the sum of price times quantity
over the echoed receipt lines. -/
theorem getTotalPrice_eq_sum (selected : List SelectedProduct)
    (hq : ∀ row ∈ selected, row.quantity ≠ 0) :
    getTotalPrice selected =
      ((getSelectedProductsList selected).map
        (fun it => it.price * (it.quantity : Int))).sum := by
  unfold getTotalPrice
  rw [foldl_add_total
    (fun item => item.product.price *
      (((if item.quantity = 0 then 1 else item.quantity) : Nat) : Int))]
  rw [zero_add]
  simp only [getSelectedProductsList, List.map_map]
  congr 1
  apply List.map_congr_left
  intro row hrow
  simp [if_neg (hq row hrow)]

/-- C5: a successful purchase produces a receipt whose reported `totalPrice`
is the sum of `price * quantity` over its line items, and whose line items
are exactly the ones sent to the purchase endpoint (the request body is their
image under the body shaping). -/
theorem purchase_receipt_round_trip (balance : Int)
    (selected : List SelectedProduct) (now : String) (srv : ServerResp)
    (hne : selected ≠ [])
    (hq : ∀ row ∈ selected, row.quantity ≠ 0)
    (hbal : ¬ balance < getTotalPrice selected)
    (hok : srv.ok = true) :
    ∃ receipt : Receipt,
      (handlePurchase balance selected now srv).result = .purchased receipt ∧
      receipt.products = getSelectedProductsList selected ∧
      receipt.totalPrice =
        (receipt.products.map (fun it => it.price * (it.quantity : Int))).sum ∧
      (handlePurchase balance selected now srv).request =
        some (receipt.products.map toApiItem) := by
  have hlen : (getSelectedProductsList selected).length ≠ 0 := by
    simpa [getSelectedProductsList] using hne
  refine ⟨⟨getSelectedProductsList selected, getTotalPrice selected, now,
    match srv.balance_after with
    | some b => b
    | none => balance - getTotalPrice selected⟩, ?_, rfl, ?_, ?_⟩
  · simp [handlePurchase, hlen, hbal, hok]
  · exact getTotalPrice_eq_sum selected hq
  · simp [handlePurchase, hlen, hbal, hok]

/-- Selected row worth 2000 with quantity 2, for the C5 witness. -/
def witRow2 : SelectedProduct := ⟨"r2", ⟨10, "Cola", 2000⟩, 2⟩

/-- Witness for C5: balance 5000, total 4000, server ok without
`balance_after`. -/
theorem purchase_receipt_round_trip_witness :
    ∃ receipt : Receipt,
      (handlePurchase 5000 [witRow2] "t8" ⟨true, none⟩).result =
        .purchased receipt ∧
      receipt.products = getSelectedProductsList [witRow2] ∧
      receipt.totalPrice =
        (receipt.products.map (fun it => it.price * (it.quantity : Int))).sum ∧
      (handlePurchase 5000 [witRow2] "t8" ⟨true, none⟩).request =
        some (receipt.products.map toApiItem) :=
  purchase_receipt_round_trip 5000 [witRow2] "t8" ⟨true, none⟩
    (by decide) (by decide) (by decide) rfl

end ThihaShop
